import Mathlib

/-!
Shallow embedding of the EVM bytecode interpreter in `src/main.cpp`.

Machine integers are modelled as `Nat` with explicit reductions:
`% 2 ^ 256` where the C++ `intx::uint256` arithmetic wraps, `% 2 ^ 8` where a
value is cast to `std::uint8_t`, and `% 2 ^ 64` where a `uint256` is
`static_cast` to `std::size_t` (truncation to the low 64 bits).

Control flow of the C++ (exceptions caught by the dispatch loop) is modelled
by the explicit result type `StepResult`:
* `ok`      : the handler returned the updated context;
* `revert`  : the handler threw `std::runtime_error` carrying a `RevertError`
              (the carried context is the state at the moment of the throw);
* `oob`     : a checked container access threw `std::out_of_range`
              (`bytecode.at` in `Jump`); the dispatch loop's first catch
              clause reports this the same way as a missing table entry;
* `undef`   : undefined behaviour or an uncaught exception, e.g. `top`/`pop`
              on an empty `std::stack`, building a `std::span` past the end
              of a buffer, or `to_uint256`'s `std::invalid_argument` which no
              catch clause in `Interpret` handles.
-/

namespace EvmExec

/-! Constants from `src/main.cpp` lines 14-36. -/

def kWordSize : Nat := 32

def kByteSize : Nat := 8

def kMaxStackWordsSize : Nat := 1024

def kMaxStackSize : Nat := kMaxStackWordsSize * 8

def kMemorySize : Nat := 100000

def kShl : Nat := 0x1b

def kMLoad : Nat := 0x51

def kMStore : Nat := 0x52

def kJump : Nat := 0x56

def kJumpDest : Nat := 0x5b

def kPush0 : Nat := 0x5f

def kPush1 : Nat := 0x60

def kPush2 : Nat := 0x61

def kPush12 : Nat := 0x6b

def kDup2 : Nat := 0x81

def kDup3 : Nat := 0x82

def kSwap1 : Nat := 0x90

inductive RevertError where
  | kStackOverflow
  | kGasExceeded
  | kStackUnderflow
  | kMemoryUnalignedAccess
  | kInvalidJump
  deriving DecidableEq, Repr

structure OpcodeInfo where
  advance_by : Nat := 0
  gas_consumed : Nat := 0
  deriving DecidableEq, Repr

/-- The `kOpcodeInfo` table (`main.cpp` lines 45-47), keyed by opcode byte;
`none` models a missing `unordered_map` entry. -/
def kOpcodeInfo (opcode : Nat) : Option OpcodeInfo :=
  if opcode = kMLoad then some {}
  else if opcode = kJump then some {}
  else if opcode = kDup3 then some {}
  else if opcode = kPush2 then some { advance_by := 2 }
  else if opcode = kPush0 then some {}
  else if opcode = kPush12 then some { advance_by := 12 }
  else if opcode = kPush1 then some { advance_by := 1, gas_consumed := 0 }
  else if opcode = kMStore then some {}
  else if opcode = kSwap1 then some {}
  else if opcode = kDup2 then some {}
  else if opcode = kShl then some {}
  else none

/-- `Interpreter::ExecutionContext` (`main.cpp` lines 214-219).
`bytecode` and `stack` hold byte values (< 2^8) resp. word values (< 2^256)
in every reachable state; `stack` is held head-first (head = top).
`memory` models `std::array<std::uint8_t, kMemorySize>` as a function from
byte address to byte value, zero-initialised. -/
structure ExecutionContext where
  program_counter : Nat := 0
  bytecode : List Nat := []
  stack : List Nat := []
  memory : Nat → Nat := fun _ => 0

/-- The zero-initialised memory of a fresh `ExecutionContext`. -/
def mem0 : Nat → Nat := fun _ => 0

inductive StepResult where
  | ok (ec : ExecutionContext)
  | revert (err : RevertError) (ec : ExecutionContext)
  | oob
  | undef

/-- `to_uint256` (`main.cpp` lines 49-59): fold the bytes big-endian into a
256-bit word, `word = (word << kByteSize) | byte`; the shift wraps modulo
2^256. Inputs longer than `kWordSize` throw `std::invalid_argument`
(modelled as `none`). -/
def to_uint256 (byte_array : List Nat) : Option Nat :=
  if kWordSize < byte_array.length then none
  else
    some (byte_array.foldl (fun word byte => word * 2 ^ kByteSize % 2 ^ 256 ||| byte) 0)

/-- `PushToStack<num_bytes>` (`main.cpp` lines 64-86): read the `num_bytes`
bytecode bytes after the opcode (each `static_cast` to `std::uint8_t`, hence
the `% 2 ^ kByteSize`), build a word via `to_uint256`, push it, then check
the stack cap. Building the span past the end of the bytecode vector is
undefined behaviour; for `num_bytes = 0` no span is built at all
(`if constexpr`). -/
def PushToStack (num_bytes : Nat) (ec : ExecutionContext) : StepResult :=
  if num_bytes ≠ 0 ∧ ec.bytecode.length < ec.program_counter + 1 + num_bytes then
    .undef
  else
    let raw_data :=
      ((ec.bytecode.drop (ec.program_counter + 1)).take num_bytes).map (· % 2 ^ kByteSize)
    match if num_bytes = 0 then some 0 else to_uint256 raw_data with
    | none => .undef
    | some stack_item =>
      let ec' := { ec with stack := stack_item :: ec.stack }
      if ec'.stack.length > kMaxStackSize then .revert .kStackOverflow ec'
      else .ok ec'

/-- `Jump` (`main.cpp` lines 88-105): pop the target, truncate it to
`std::size_t` (low 64 bits), set the program counter to it, and require the
byte there to be `kJumpDest`. `bytecode.at` on an out-of-range target throws
`std::out_of_range`. -/
def Jump (ec : ExecutionContext) : StepResult :=
  match ec.stack with
  | counter :: rest =>
    let pc := counter % 2 ^ 64
    let ec' := { ec with stack := rest, program_counter := pc }
    if pc < ec.bytecode.length then
      if ec.bytecode.getD pc 0 ≠ kJumpDest then .revert .kInvalidJump ec'
      else .ok ec'
    else .oob
  | [] => .revert .kStackUnderflow ec

/-- The 32 bytes written by `MSTORE`: `intx::as_bytes(value)` is the
little-endian representation, which the handler copies reversed, i.e.
big-endian, most significant byte first. -/
def wordBeBytes (value : Nat) : List Nat :=
  (List.range kWordSize).map fun i =>
    value / 2 ^ (kByteSize * (kWordSize - 1 - i)) % 2 ^ kByteSize

/-- Writing a byte list into the memory function starting at `offset`. -/
def writeBytes (memory : Nat → Nat) (offset : Nat) (bytes : List Nat) : Nat → Nat :=
  fun addr =>
    if offset ≤ addr ∧ addr < offset + bytes.length then bytes.getD (addr - offset) 0
    else memory addr

/-- Reading `count` consecutive bytes from memory starting at `offset`. -/
def readBytes (memory : Nat → Nat) (offset count : Nat) : List Nat :=
  (List.range count).map fun i => memory (offset + i)

/-- `StoreToMemory` (`main.cpp` lines 107-124): pop offset then value, write
the 32-byte big-endian encoding of value at the offset (truncated to
`std::size_t`). Copying past the end of the `std::array` is undefined
behaviour. -/
def StoreToMemory (ec : ExecutionContext) : StepResult :=
  match ec.stack with
  | offset :: value :: rest =>
    let off := offset % 2 ^ 64
    if kMemorySize < off + kWordSize then .undef
    else .ok { ec with stack := rest, memory := writeBytes ec.memory off (wordBeBytes value) }
  | _ => .revert .kStackUnderflow ec

/-- `LoadFromMemory` (`main.cpp` lines 126-140): pop offset, read 32 bytes
from memory there, fold them big-endian via `to_uint256`, push the word.
Building the span past the end of the `std::array` is undefined behaviour. -/
def LoadFromMemory (ec : ExecutionContext) : StepResult :=
  match ec.stack with
  | offset :: rest =>
    let off := offset % 2 ^ 64
    if kMemorySize < off + kWordSize then .undef
    else
      match to_uint256 (readBytes ec.memory off kWordSize) with
      | none => .undef
      | some value => .ok { ec with stack := value :: rest }
  | [] => .revert .kStackUnderflow ec

/-- `SwapStackValues` (`main.cpp` lines 143-160): pop `first` and `second`,
push `first` then `second` back, exchanging the top two items. -/
def SwapStackValues (ec : ExecutionContext) : StepResult :=
  match ec.stack with
  | first :: second :: rest => .ok { ec with stack := second :: first :: rest }
  | _ => .revert .kStackUnderflow ec

/-- `DuplicateStackValue<idx>` (`main.cpp` lines 163-184): pop `idx` items
into a window, push them back in the original order, then push the window's
last element (the old `idx`-th item from the top), finally check the stack
cap. The source has no underflow check (only a TODO comment), so popping
with fewer than `idx` items on the stack — or taking `.back()` of the empty
window when `idx = 0` — is undefined behaviour on `std::stack`. -/
def DuplicateStackValue (idx : Nat) (ec : ExecutionContext) : StepResult :=
  if idx = 0 ∨ ec.stack.length < idx then .undef
  else
    let stack_contents_window := ec.stack.take idx
    let ec' :=
      { ec with
        stack :=
          stack_contents_window.getLastD 0 ::
            (stack_contents_window ++ ec.stack.drop idx) }
    if ec'.stack.length > kMaxStackSize then .revert .kStackOverflow ec'
    else .ok ec'

/-- `ShiftLeft` (`main.cpp` lines 186-202): pop shift then value, push
`value << shift` with `intx::uint256` semantics: `value * 2 ^ shift`
modulo 2^256 (zero whenever `shift ≥ 256` and `value < 2 ^ 256`). -/
def ShiftLeft (ec : ExecutionContext) : StepResult :=
  match ec.stack with
  | shift :: value :: rest => .ok { ec with stack := value * 2 ^ shift % 2 ^ 256 :: rest }
  | _ => .revert .kStackUnderflow ec

/-- The `kOpcodeHandlers` table (`main.cpp` lines 265-275), keyed by opcode
byte; `none` models a missing `unordered_map` entry (the `.at` lookup then
throws `std::out_of_range`). -/
def kOpcodeHandlers (opcode : Nat) : Option (ExecutionContext → StepResult) :=
  if opcode = kJump then some Jump
  else if opcode = kDup3 then some (DuplicateStackValue 3)
  else if opcode = kPush2 then some (PushToStack 2)
  else if opcode = kPush0 then some (PushToStack 0)
  else if opcode = kMLoad then some LoadFromMemory
  else if opcode = kShl then some ShiftLeft
  else if opcode = kPush12 then some (PushToStack 12)
  else if opcode = kPush1 then some (PushToStack 1)
  else if opcode = kMStore then some StoreToMemory
  else if opcode = kSwap1 then some (SwapStackValues)
  else if opcode = kDup2 then some (DuplicateStackValue 2)
  else none

/-- Abort reasons observable from `Interpreter::Interpret`: the
`std::out_of_range` catch clause reports an unrecognized opcode, the
`std::runtime_error` catch clause reports a handler revert. -/
inductive Fault where
  | unrecognized (opcode : Nat)
  | reverted (err : RevertError)
  deriving DecidableEq, Repr

inductive StepOutcome where
  | next (ec : ExecutionContext)
  | halt (ec : ExecutionContext)
  | abort (fault : Fault) (ec : ExecutionContext)
  | crash

/-- Advancing after a successful handler: `program_counter++` followed by
`program_counter += kOpcodeInfo.at(opcode).advance_by` (`main.cpp` lines
246-247); a missing metadata entry would throw `std::out_of_range` into the
unrecognized-opcode catch clause (in fact both tables have the same keys). -/
def stepRun (ec : ExecutionContext) (opcode : Nat) (result : StepResult) : StepOutcome :=
  match result with
  | .ok ec1 =>
    let ec2 := { ec1 with program_counter := ec1.program_counter + 1 }
    match kOpcodeInfo opcode with
    | none => .abort (.unrecognized opcode) ec2
    | some info => .next { ec2 with program_counter := ec2.program_counter + info.advance_by }
  | .revert err ecf => .abort (.reverted err) ecf
  | .oob => .abort (.unrecognized opcode) ec
  | .undef => .crash

/-- Handler lookup and invocation for the fetched opcode: a missing
`kOpcodeHandlers` entry throws `std::out_of_range` from `.at` before the
context is touched, so the abort carries the unchanged context. -/
def stepFetch (ec : ExecutionContext) (opcode : Nat) : StepOutcome :=
  match kOpcodeHandlers opcode with
  | none => .abort (.unrecognized opcode) ec
  | some handler => stepRun ec opcode (handler ec)

/-- One iteration of the `Interpreter::Interpret` while loop (`main.cpp`
lines 239-258): halt when the program counter reaches or passes the end of
the bytecode, otherwise fetch and dispatch the opcode at the program
counter. -/
def step (ec : ExecutionContext) : StepOutcome :=
  if ec.program_counter < ec.bytecode.length then
    stepFetch ec (ec.bytecode.getD ec.program_counter 0)
  else .halt ec

inductive Outcome where
  | halted (ec : ExecutionContext)
  | aborted (fault : Fault) (ec : ExecutionContext)
  | crashed

/-- `Interpreter::Interpret` as a fuel-bounded iteration of `step`;
`none` means the fuel ran out before the loop terminated. -/
def Interpret : Nat → ExecutionContext → Option Outcome
  | 0, _ => none
  | fuel + 1, ec =>
    match step ec with
    | .next ec' => Interpret fuel ec'
    | .halt ech => some (.halted ech)
    | .abort fault ecf => some (.aborted fault ecf)
    | .crash => some .crashed

/-! Arithmetic helper lemmas about byte folding. -/

/-- The big-endian integer value of a byte list: the specification's reading
of "the next n bytecode bytes (big-endian)". -/
def beValue (bytes : List Nat) : Nat :=
  bytes.foldl (fun acc byte => 2 ^ kByteSize * acc + byte) 0

lemma two_pow_mul_lor_eq_add (n : Nat) :
    ∀ a b : Nat, b < 2 ^ n → 2 ^ n * a ||| b = 2 ^ n * a + b := by
  induction n with
  | zero =>
    intro a b hb
    interval_cases b
    simp
  | succ n ih =>
    intro a b hb
    have hbit := Nat.bit_decide_mod_two_eq_one_shiftRight_one b
    have hmlt : b >>> 1 < 2 ^ n := by
      rw [Nat.shiftRight_one]
      have h2 : 2 ^ (n + 1) = 2 * 2 ^ n := by ring
      omega
    have h2a : 2 ^ (n + 1) * a = Nat.bit false (2 ^ n * a) := by
      simp [Nat.bit]
      ring
    rw [← hbit, h2a, Nat.lor_bit, Bool.false_or, ih a (b >>> 1) hmlt]
    simp only [Nat.bit_val, Bool.toNat_false]
    ring

lemma mod_mul_decomp (v b c : Nat) : v % (b * c) = b * (v / b % c) + v % b := by
  conv_lhs => rw [← Nat.div_add_mod (v % (b * c)) b]
  rw [Nat.mod_mul_right_div_self, Nat.mod_mod_of_dvd v ⟨c, rfl⟩]

lemma beValue_foldl_lt (bytes : List Nat) :
    ∀ acc : Nat, (∀ b ∈ bytes, b < 2 ^ kByteSize) →
      bytes.foldl (fun acc byte => 2 ^ kByteSize * acc + byte) acc <
        (acc + 1) * 2 ^ (kByteSize * bytes.length) := by
  induction bytes with
  | nil => intro acc _; simp
  | cons b bs ih =>
    intro acc hb
    have hb0 : b < 2 ^ kByteSize := hb b (by simp)
    have hstep := ih (2 ^ kByteSize * acc + b) (fun x hx => hb x (by simp [hx]))
    have hle : (2 ^ kByteSize * acc + b + 1) ≤ (acc + 1) * 2 ^ kByteSize := by
      have : b + 1 ≤ 2 ^ kByteSize := hb0
      calc 2 ^ kByteSize * acc + b + 1 ≤ 2 ^ kByteSize * acc + 2 ^ kByteSize := by omega
        _ = (acc + 1) * 2 ^ kByteSize := by ring
    calc (b :: bs).foldl (fun acc byte => 2 ^ kByteSize * acc + byte) acc
        = bs.foldl (fun acc byte => 2 ^ kByteSize * acc + byte) (2 ^ kByteSize * acc + b) := by
          simp
      _ < (2 ^ kByteSize * acc + b + 1) * 2 ^ (kByteSize * bs.length) := hstep
      _ ≤ (acc + 1) * 2 ^ kByteSize * 2 ^ (kByteSize * bs.length) :=
          Nat.mul_le_mul_right _ hle
      _ = (acc + 1) * 2 ^ (kByteSize * (b :: bs).length) := by
          rw [List.length_cons, mul_assoc, ← pow_add]
          ring_nf

lemma to_uint256_foldl_eq (bytes : List Nat) :
    ∀ acc : Nat, (acc + 1) * 2 ^ (kByteSize * bytes.length) ≤ 2 ^ 256 →
      (∀ b ∈ bytes, b < 2 ^ kByteSize) →
      bytes.foldl (fun word byte => word * 2 ^ kByteSize % 2 ^ 256 ||| byte) acc =
        bytes.foldl (fun acc byte => 2 ^ kByteSize * acc + byte) acc := by
  induction bytes with
  | nil => intro acc _ _; rfl
  | cons b bs ih =>
    intro acc hbound hb
    have hb0 : b < 2 ^ kByteSize := hb b (by simp)
    have hlen : 2 ^ kByteSize ≤ 2 ^ (kByteSize * (b :: bs).length) := by
      apply Nat.pow_le_pow_right (by norm_num)
      simp only [List.length_cons, kByteSize]
      omega
    have hacc : acc * 2 ^ kByteSize < 2 ^ 256 := by
      calc acc * 2 ^ kByteSize < (acc + 1) * 2 ^ kByteSize := by
            have hpos : 0 < 2 ^ kByteSize := by positivity
            exact (Nat.mul_lt_mul_right hpos).mpr (Nat.lt_succ_self acc)
        _ ≤ (acc + 1) * 2 ^ (kByteSize * (b :: bs).length) :=
            Nat.mul_le_mul_left _ hlen
        _ ≤ 2 ^ 256 := hbound
    have hmod : acc * 2 ^ kByteSize % 2 ^ 256 = acc * 2 ^ kByteSize :=
      Nat.mod_eq_of_lt hacc
    have hlor : acc * 2 ^ kByteSize ||| b = 2 ^ kByteSize * acc + b := by
      rw [mul_comm acc]
      exact two_pow_mul_lor_eq_add kByteSize acc b hb0
    have hnext : (2 ^ kByteSize * acc + b + 1) * 2 ^ (kByteSize * bs.length) ≤ 2 ^ 256 := by
      have hle : 2 ^ kByteSize * acc + b + 1 ≤ (acc + 1) * 2 ^ kByteSize := by
        have : b + 1 ≤ 2 ^ kByteSize := hb0
        calc 2 ^ kByteSize * acc + b + 1 ≤ 2 ^ kByteSize * acc + 2 ^ kByteSize := by omega
          _ = (acc + 1) * 2 ^ kByteSize := by ring
      calc (2 ^ kByteSize * acc + b + 1) * 2 ^ (kByteSize * bs.length)
          ≤ (acc + 1) * 2 ^ kByteSize * 2 ^ (kByteSize * bs.length) :=
            Nat.mul_le_mul_right _ hle
        _ = (acc + 1) * 2 ^ (kByteSize * (b :: bs).length) := by
            rw [List.length_cons, mul_assoc, ← pow_add]
            ring_nf
        _ ≤ 2 ^ 256 := hbound
    calc (b :: bs).foldl (fun word byte => word * 2 ^ kByteSize % 2 ^ 256 ||| byte) acc
        = bs.foldl (fun word byte => word * 2 ^ kByteSize % 2 ^ 256 ||| byte)
            (2 ^ kByteSize * acc + b) := by
          simp only [List.foldl_cons, hmod, hlor]
      _ = bs.foldl (fun acc byte => 2 ^ kByteSize * acc + byte) (2 ^ kByteSize * acc + b) :=
          ih _ hnext (fun x hx => hb x (by simp [hx]))
      _ = (b :: bs).foldl (fun acc byte => 2 ^ kByteSize * acc + byte) acc := by simp

lemma to_uint256_eq_beValue (bytes : List Nat) (hlen : bytes.length ≤ kWordSize)
    (hb : ∀ b ∈ bytes, b < 2 ^ kByteSize) :
    to_uint256 bytes = some (beValue bytes) := by
  unfold to_uint256 beValue
  rw [if_neg (by omega)]
  congr 1
  apply to_uint256_foldl_eq bytes 0 ?_ hb
  simp only [Nat.zero_add, one_mul]
  apply Nat.pow_le_pow_right (by norm_num)
  have : kByteSize * bytes.length ≤ kByteSize * kWordSize := Nat.mul_le_mul_left _ hlen
  simpa [kByteSize, kWordSize] using this

lemma beValue_append (bytes : List Nat) (b : Nat) :
    beValue (bytes ++ [b]) = 2 ^ kByteSize * beValue bytes + b := by
  unfold beValue
  rw [List.foldl_append]
  simp

lemma beValue_range_digits (k : Nat) :
    ∀ v : Nat,
      beValue ((List.range k).map fun i => v / 2 ^ (kByteSize * (k - 1 - i)) % 2 ^ kByteSize) =
        v % 2 ^ (kByteSize * k) := by
  induction k with
  | zero => intro v; simp [beValue, Nat.mod_one]
  | succ k ih =>
    intro v
    rw [List.range_succ, List.map_append]
    simp only [List.map_cons, List.map_nil]
    rw [beValue_append]
    have hmap : ((List.range k).map fun i => v / 2 ^ (kByteSize * (k + 1 - 1 - i)) % 2 ^ kByteSize) =
        (List.range k).map fun i =>
          (v / 2 ^ kByteSize) / 2 ^ (kByteSize * (k - 1 - i)) % 2 ^ kByteSize := by
      apply List.map_congr_left
      intro i hi
      rw [List.mem_range] at hi
      rw [Nat.div_div_eq_div_mul, ← pow_add]
      have hexp : kByteSize * (k + 1 - 1 - i) = kByteSize + kByteSize * (k - 1 - i) := by
        simp only [kByteSize]
        omega
      rw [hexp]
    rw [hmap, ih (v / 2 ^ kByteSize)]
    have hlast : v / 2 ^ (kByteSize * (k + 1 - 1 - k)) % 2 ^ kByteSize = v % 2 ^ kByteSize := by
      norm_num
    rw [hlast]
    have hpow : 2 ^ (kByteSize * (k + 1)) = 2 ^ kByteSize * 2 ^ (kByteSize * k) := by
      rw [← pow_add]
      ring_nf
    rw [hpow, mod_mul_decomp v (2 ^ kByteSize) (2 ^ (kByteSize * k))]

lemma wordBeBytes_length (value : Nat) : (wordBeBytes value).length = kWordSize := by
  simp [wordBeBytes]

lemma wordBeBytes_lt (value : Nat) : ∀ b ∈ wordBeBytes value, b < 2 ^ kByteSize := by
  intro b hb
  simp only [wordBeBytes, List.mem_map] at hb
  obtain ⟨i, _, rfl⟩ := hb
  exact Nat.mod_lt _ (by norm_num [kByteSize])

lemma beValue_wordBeBytes (value : Nat) (hv : value < 2 ^ 256) :
    beValue (wordBeBytes value) = value := by
  unfold wordBeBytes
  rw [beValue_range_digits kWordSize value]
  have : kByteSize * kWordSize = 256 := by norm_num [kByteSize, kWordSize]
  rw [this, Nat.mod_eq_of_lt hv]

lemma to_uint256_wordBeBytes (value : Nat) (hv : value < 2 ^ 256) :
    to_uint256 (wordBeBytes value) = some value := by
  rw [to_uint256_eq_beValue _ (by rw [wordBeBytes_length]) (wordBeBytes_lt value),
    beValue_wordBeBytes value hv]

lemma readBytes_writeBytes (memory : Nat → Nat) (offset : Nat) (bytes : List Nat) :
    readBytes (writeBytes memory offset bytes) offset bytes.length = bytes := by
  unfold readBytes writeBytes
  apply List.ext_getElem
  · simp
  · intro i h1 h2
    simp only [List.getElem_map, List.getElem_range]
    rw [if_pos (by omega)]
    have hsub : offset + i - offset = i := by omega
    rw [hsub, List.getD_eq_getElem]

/-! Evaluation lemmas for the dispatch loop. -/

lemma kOpcodeHandlers_at_kJump : kOpcodeHandlers kJump = some Jump := rfl

lemma kOpcodeInfo_at_kJump : kOpcodeInfo kJump = some {} := rfl

lemma step_eval (ec : ExecutionContext) (hpc : ec.program_counter < ec.bytecode.length) :
    step ec = stepFetch ec (ec.bytecode.getD ec.program_counter 0) := by
  unfold step
  rw [if_pos hpc]

lemma step_halt_eval (ec : ExecutionContext) (hpc : ec.bytecode.length ≤ ec.program_counter) :
    step ec = .halt ec := by
  unfold step
  rw [if_neg (by omega)]

lemma stepFetch_eval (ec : ExecutionContext) (opcode : Nat)
    (handler : ExecutionContext → StepResult)
    (hhandler : kOpcodeHandlers opcode = some handler) :
    stepFetch ec opcode = stepRun ec opcode (handler ec) := by
  unfold stepFetch
  rw [hhandler]

lemma stepRun_ok_eval (ec ec1 : ExecutionContext) (opcode : Nat) (info : OpcodeInfo)
    (hinfo : kOpcodeInfo opcode = some info) :
    stepRun ec opcode (.ok ec1) =
      .next { ec1 with program_counter := ec1.program_counter + 1 + info.advance_by } := by
  unfold stepRun
  rw [hinfo]

lemma stepRun_revert_eval (ec ecf : ExecutionContext) (opcode : Nat) (err : RevertError) :
    stepRun ec opcode (.revert err ecf) = .abort (.reverted err) ecf := rfl

lemma step_abort_of_no_handler (ec : ExecutionContext) (opcode : Nat)
    (hpc : ec.program_counter < ec.bytecode.length)
    (hop : ec.bytecode.getD ec.program_counter 0 = opcode)
    (hnone : kOpcodeHandlers opcode = none) :
    step ec = .abort (.unrecognized opcode) ec := by
  rw [step_eval ec hpc, hop]
  unfold stepFetch
  rw [hnone]

lemma interpret_aborted_of_no_handler (fuel : Nat) (ec : ExecutionContext) (opcode : Nat)
    (hpc : ec.program_counter < ec.bytecode.length)
    (hop : ec.bytecode.getD ec.program_counter 0 = opcode)
    (hnone : kOpcodeHandlers opcode = none) :
    Interpret (fuel + 1) ec = some (.aborted (.unrecognized opcode) ec) := by
  have hstep := step_abort_of_no_handler ec opcode hpc hop hnone
  unfold Interpret
  rw [hstep]

set_option maxHeartbeats 2000000 in
lemma kOpcodeInfo_exists_of_handler (opcode : Nat) (handler : ExecutionContext → StepResult)
    (hhandler : kOpcodeHandlers opcode = some handler) :
    ∃ info, kOpcodeInfo opcode = some info := by
  unfold kOpcodeHandlers at hhandler
  split_ifs at hhandler <;>
    first
      | exact Option.noConfusion hhandler
      | (subst_vars; exact ⟨_, rfl⟩)

lemma step_not_halt_of_lt (ec : ExecutionContext)
    (hlt : ec.program_counter < ec.bytecode.length) :
    ∀ ech : ExecutionContext, step ec ≠ .halt ech := by
  intro ech h
  rw [step_eval ec hlt] at h
  unfold stepFetch at h
  revert h
  split
  · intro h
    exact StepOutcome.noConfusion h
  · unfold stepRun
    split
    · split
      · intro h
        exact StepOutcome.noConfusion h
      · intro h
        exact StepOutcome.noConfusion h
    · intro h
      exact StepOutcome.noConfusion h
    · intro h
      exact StepOutcome.noConfusion h
    · intro h
      exact StepOutcome.noConfusion h

/-! The C1 and C2 claim theorems record where the source diverges from the
specified stack discipline. -/

/-- Claim C1, evaluated at the failing input: the source caps the stack at
`kMaxStackSize = kMaxStackWordsSize * 8 = 8192` entries and checks only
after pushing, so a push onto a stack already holding 1024 words succeeds
and yields depth 1025 instead of faulting with StackOverflow. -/
theorem push_at_depth_1024_succeeds :
    PushToStack 0 ⟨0, [kPush0], List.replicate kMaxStackWordsSize 0, mem0⟩ =
      .ok ⟨0, [kPush0], 0 :: List.replicate kMaxStackWordsSize 0, mem0⟩ ∧
    (0 :: List.replicate kMaxStackWordsSize 0).length = kMaxStackWordsSize + 1 := by
  constructor
  · unfold PushToStack
    rw [if_neg (fun h => h.1 rfl)]
    show (if ((0 : Nat) :: List.replicate kMaxStackWordsSize 0).length > kMaxStackSize
        then StepResult.revert .kStackOverflow _ else .ok _) = _
    rw [if_neg (by rw [List.length_cons, List.length_replicate]; decide)]
  · rw [List.length_cons, List.length_replicate]

/-- Claim C2, evaluated at the failing input: `DuplicateStackValue` has no
underflow check (only a TODO comment in the source), so DUP2 on an empty
stack pops an empty `std::stack` — undefined behavior, not a deterministic
`StackUnderflow` revert. -/
theorem dup2_on_empty_stack_is_undefined :
    DuplicateStackValue 2 ⟨0, [kDup2], [], mem0⟩ = .undef ∧
    ∀ (err : RevertError) (ec : ExecutionContext),
      DuplicateStackValue 2 ⟨0, [kDup2], [], mem0⟩ ≠ .revert err ec := by
  refine ⟨rfl, ?_⟩
  intro err ec h
  rw [show DuplicateStackValue 2 ⟨0, [kDup2], [], mem0⟩ = .undef from rfl] at h
  exact StepResult.noConfusion h

/-- Claim C3: JUMP pops the target, sets the program counter to it, and
requires the byte there to be JUMPDEST: if it is, the dispatch loop makes
target + 1 the next fetch point; otherwise the run aborts with InvalidJump. -/
theorem jump_requires_jumpdest_and_resumes_after_target (pc target : Nat)
    (bc rest : List Nat) (memory : Nat → Nat)
    (hpc : pc < bc.length) (hop : bc.getD pc 0 = kJump)
    (htarget : target < bc.length) (ht64 : target < 2 ^ 64) :
    (bc.getD target 0 = kJumpDest →
      step ⟨pc, bc, target :: rest, memory⟩ = .next ⟨target + 1, bc, rest, memory⟩) ∧
    (bc.getD target 0 ≠ kJumpDest →
      step ⟨pc, bc, target :: rest, memory⟩ =
        .abort (.reverted .kInvalidJump) ⟨target, bc, rest, memory⟩) := by
  have hstep : step ⟨pc, bc, target :: rest, memory⟩ =
      stepRun ⟨pc, bc, target :: rest, memory⟩ kJump
        (Jump ⟨pc, bc, target :: rest, memory⟩) := by
    rw [step_eval ⟨pc, bc, target :: rest, memory⟩ hpc]
    show stepFetch _ (bc.getD pc 0) = _
    rw [hop, stepFetch_eval _ kJump Jump kOpcodeHandlers_at_kJump]
  constructor
  · intro hj
    have hjump : Jump ⟨pc, bc, target :: rest, memory⟩ = .ok ⟨target, bc, rest, memory⟩ := by
      simp only [Jump, Nat.mod_eq_of_lt ht64]
      rw [if_pos htarget, if_neg (fun hne => hne hj)]
    rw [hstep, hjump, stepRun_ok_eval _ _ kJump {} kOpcodeInfo_at_kJump]
    rfl
  · intro hj
    have hjump : Jump ⟨pc, bc, target :: rest, memory⟩ =
        .revert .kInvalidJump ⟨target, bc, rest, memory⟩ := by
      simp only [Jump, Nat.mod_eq_of_lt ht64]
      rw [if_pos htarget, if_pos hj]
    rw [hstep, hjump, stepRun_revert_eval]

/-- Claim C3 witness: on bytecode PUSH1 3, JUMP, JUMPDEST, the JUMP step at
offset 2 with target 3 (a JUMPDEST) resumes at offset 4. -/
theorem jump_requires_jumpdest_and_resumes_after_target_witness :
    step ⟨2, [kPush1, 3, kJump, kJumpDest], [3], mem0⟩ =
      .next ⟨4, [kPush1, 3, kJump, kJumpDest], [], mem0⟩ := by
  have h := jump_requires_jumpdest_and_resumes_after_target 2 3
    [kPush1, 3, kJump, kJumpDest] [] mem0 (by decide) rfl (by decide) (by decide)
  exact h.1 rfl

/-- Claim C4: each implemented PUSHn builds the pushed word from the n
bytecode bytes after the opcode, read big-endian (zero-padded on the
most-significant side, since the value is just the base-256 integer those
bytes denote; n = 0 pushes the zero word). -/
theorem push_builds_big_endian_word (num_bytes pc : Nat) (bc stack : List Nat)
    (memory : Nat → Nat)
    (hn : num_bytes = 0 ∨ num_bytes = 1 ∨ num_bytes = 2 ∨ num_bytes = 12)
    (hbc : num_bytes ≠ 0 → pc + 1 + num_bytes ≤ bc.length)
    (hbytes : ∀ b ∈ bc, b < 2 ^ kByteSize)
    (hdepth : stack.length < kMaxStackSize) :
    PushToStack num_bytes ⟨pc, bc, stack, memory⟩ =
      .ok ⟨pc, bc, beValue ((bc.drop (pc + 1)).take num_bytes) :: stack, memory⟩ := by
  have hn32 : num_bytes ≤ kWordSize := by
    rcases hn with rfl | rfl | rfl | rfl <;> simp [kWordSize]
  have hguard : ¬(num_bytes ≠ 0 ∧ bc.length < pc + 1 + num_bytes) := by
    rintro ⟨h0, hlen⟩
    exact absurd (hbc h0) (by omega)
  have htake : ∀ b ∈ (bc.drop (pc + 1)).take num_bytes, b < 2 ^ kByteSize := fun b hb =>
    hbytes b (List.mem_of_mem_drop (List.mem_of_mem_take hb))
  have hmap : ((bc.drop (pc + 1)).take num_bytes).map (· % 2 ^ kByteSize) =
      (bc.drop (pc + 1)).take num_bytes := by
    calc ((bc.drop (pc + 1)).take num_bytes).map (· % 2 ^ kByteSize)
        = ((bc.drop (pc + 1)).take num_bytes).map id :=
          List.map_congr_left fun b hb => Nat.mod_eq_of_lt (htake b hb)
      _ = (bc.drop (pc + 1)).take num_bytes := List.map_id _
  have htlen : ((bc.drop (pc + 1)).take num_bytes).length ≤ kWordSize := by
    calc ((bc.drop (pc + 1)).take num_bytes).length ≤ num_bytes := by
          simp [List.length_take]
      _ ≤ kWordSize := hn32
  have hcap : ¬((beValue ((bc.drop (pc + 1)).take num_bytes) :: stack).length > kMaxStackSize) := by
    simp only [List.length_cons]
    omega
  have hsome : (if num_bytes = 0 then some 0
      else to_uint256 (((bc.drop (pc + 1)).take num_bytes).map (· % 2 ^ kByteSize))) =
      some (beValue ((bc.drop (pc + 1)).take num_bytes)) := by
    by_cases h0 : num_bytes = 0
    · subst h0
      rw [if_pos rfl]
      simp [beValue]
    · rw [if_neg h0, hmap]
      exact to_uint256_eq_beValue _ htlen htake
  unfold PushToStack
  rw [if_neg hguard]
  simp only [hsome]
  rw [if_neg hcap]

/-- Claim C4 witness: bytecode bytes 0x61 0x01 0x02 (PUSH2, 0x01, 0x02) push
the big-endian value 0x0102 = 258. -/
theorem push_builds_big_endian_word_witness :
    PushToStack 2 ⟨0, [kPush2, 1, 2], [], mem0⟩ = .ok ⟨0, [kPush2, 1, 2], [258], mem0⟩ := by
  have h := push_builds_big_endian_word 2 0 [kPush2, 1, 2] [] mem0 (by decide)
    (fun _ => by decide) (by decide) (by decide)
  exact h.trans rfl

/-- Claim C5: MSTORE pops offset (top) then value, writes the 32-byte
big-endian encoding of value at the offset, and MLOAD at the same offset
reads those bytes back as a big-endian word, pushing exactly the stored
value. -/
theorem mstore_mload_roundtrip (pc pc2 : Nat) (bc bc2 : List Nat) (offset value : Nat)
    (rest rest2 : List Nat) (memory : Nat → Nat)
    (hoff : offset + kWordSize ≤ kMemorySize) (hv : value < 2 ^ 256) :
    StoreToMemory ⟨pc, bc, offset :: value :: rest, memory⟩ =
      .ok ⟨pc, bc, rest, writeBytes memory offset (wordBeBytes value)⟩ ∧
    LoadFromMemory ⟨pc2, bc2, offset :: rest2, writeBytes memory offset (wordBeBytes value)⟩ =
      .ok ⟨pc2, bc2, value :: rest2, writeBytes memory offset (wordBeBytes value)⟩ := by
  have hws : 0 < kWordSize := by norm_num [kWordSize]
  have hmem : kMemorySize ≤ 2 ^ 64 := by norm_num [kMemorySize]
  have h64 : offset < 2 ^ 64 := by omega
  have hmod : offset % 2 ^ 64 = offset := Nat.mod_eq_of_lt h64
  have hread : readBytes (writeBytes memory offset (wordBeBytes value)) offset kWordSize =
      wordBeBytes value := by
    have h := readBytes_writeBytes memory offset (wordBeBytes value)
    rwa [wordBeBytes_length] at h
  constructor
  · simp only [StoreToMemory, hmod]
    rw [if_neg (by omega)]
  · simp only [LoadFromMemory, hmod]
    rw [if_neg (by omega), hread, to_uint256_wordBeBytes value hv]

/-- Claim C5 witness: storing the word 10 at offset 0 and loading offset 0
back yields 10. -/
theorem mstore_mload_roundtrip_witness :
    StoreToMemory ⟨0, [kMStore], [0, 10], mem0⟩ =
      .ok ⟨0, [kMStore], [], writeBytes mem0 0 (wordBeBytes 10)⟩ ∧
    LoadFromMemory ⟨0, [kMLoad], [0], writeBytes mem0 0 (wordBeBytes 10)⟩ =
      .ok ⟨0, [kMLoad], [10], writeBytes mem0 0 (wordBeBytes 10)⟩ :=
  mstore_mload_roundtrip 0 0 [kMStore] [kMLoad] 0 10 [] [] mem0 (by decide) (by decide)

/-- Claim C6: DUP2 and DUP3 push a copy of the k-th item from the top while
leaving the existing items in their original relative order. -/
theorem dup_pushes_copy_of_kth_item (idx pc : Nat) (bc stack : List Nat) (memory : Nat → Nat)
    (hidx : idx = 2 ∨ idx = 3) (hdepth : idx ≤ stack.length)
    (hcap : stack.length < kMaxStackSize) :
    DuplicateStackValue idx ⟨pc, bc, stack, memory⟩ =
      .ok ⟨pc, bc, stack.getD (idx - 1) 0 :: stack, memory⟩ := by
  rcases hidx with rfl | rfl
  · rcases stack with _ | ⟨a, _ | ⟨b, t⟩⟩
    · simp at hdepth
    · simp at hdepth
    · simp only [List.length_cons] at hcap
      unfold DuplicateStackValue
      rw [if_neg (by simp only [List.length_cons]; omega)]
      show (if (b :: a :: b :: t).length > kMaxStackSize
          then StepResult.revert .kStackOverflow _ else .ok _) = _
      rw [if_neg (by simp only [List.length_cons]; omega)]
      rfl
  · rcases stack with _ | ⟨a, _ | ⟨b, _ | ⟨c, t⟩⟩⟩
    · simp at hdepth
    · simp at hdepth
    · simp at hdepth
    · simp only [List.length_cons] at hcap
      unfold DuplicateStackValue
      rw [if_neg (by simp only [List.length_cons]; omega)]
      show (if (c :: a :: b :: c :: t).length > kMaxStackSize
          then StepResult.revert .kStackOverflow _ else .ok _) = _
      rw [if_neg (by simp only [List.length_cons]; omega)]
      rfl

/-- Claim C6 witness: DUP2 on stack [5, 7] (5 on top) yields [7, 5, 7]. -/
theorem dup_pushes_copy_of_kth_item_witness :
    DuplicateStackValue 2 ⟨0, [kDup2], [5, 7], mem0⟩ =
      .ok ⟨0, [kDup2], [7, 5, 7], mem0⟩ := by
  have h := dup_pushes_copy_of_kth_item 2 0 [kDup2] [5, 7] mem0 (by decide) (by decide)
    (by decide)
  exact h.trans rfl

/-- Claim C7: SHL pops shift (top) then value and pushes value shifted left
by shift modulo 2^256; shift 0 is the identity on words and any shift of at
least 256 yields zero. -/
theorem shl_shifts_value_mod_2_pow_256 (pc : Nat) (bc : List Nat) (shift value : Nat)
    (rest : List Nat) (memory : Nat → Nat) (hv : value < 2 ^ 256) :
    ShiftLeft ⟨pc, bc, shift :: value :: rest, memory⟩ =
      .ok ⟨pc, bc, value * 2 ^ shift % 2 ^ 256 :: rest, memory⟩ ∧
    (shift = 0 → value * 2 ^ shift % 2 ^ 256 = value) ∧
    (256 ≤ shift → value * 2 ^ shift % 2 ^ 256 = 0) := by
  refine ⟨rfl, ?_, ?_⟩
  · rintro rfl
    rw [pow_zero, mul_one]
    exact Nat.mod_eq_of_lt hv
  · intro hs
    have hpow : 2 ^ shift = 2 ^ (shift - 256) * 2 ^ 256 := by
      rw [← pow_add]
      congr 1
      omega
    rw [hpow, ← mul_assoc, Nat.mul_mod_left]

/-- Claim C7 witness: shifting the word 7 left by 300 yields the zero word. -/
theorem shl_shifts_value_mod_2_pow_256_witness :
    ShiftLeft ⟨0, [kShl], [300, 7], mem0⟩ = .ok ⟨0, [kShl], [0], mem0⟩ := by
  have h := shl_shifts_value_mod_2_pow_256 0 [kShl] 300 7 [] mem0 (by norm_num)
  rw [h.1, h.2.2 (by norm_num)]

/-- Claim C8: an opcode byte with no entry in the handler table makes the
run terminate Aborted with the distinct UnrecognizedOpcode fault, the
context unchanged by that step. -/
theorem unrecognized_opcode_aborts_run (fuel : Nat) (ec : ExecutionContext) (opcode : Nat)
    (hpc : ec.program_counter < ec.bytecode.length)
    (hop : ec.bytecode.getD ec.program_counter 0 = opcode)
    (hnone : kOpcodeHandlers opcode = none) :
    Interpret (fuel + 1) ec = some (.aborted (.unrecognized opcode) ec) :=
  interpret_aborted_of_no_handler fuel ec opcode hpc hop hnone

/-- Claim C8 witness: the one-byte bytecode 0x00 aborts with
UnrecognizedOpcode at offset 0, the state untouched. -/
theorem unrecognized_opcode_aborts_run_witness :
    Interpret 1 ⟨0, [0x00], [], mem0⟩ =
      some (.aborted (.unrecognized 0x00) ⟨0, [0x00], [], mem0⟩) :=
  unrecognized_opcode_aborts_run 0 ⟨0, [0x00], [], mem0⟩ 0x00 (by decide) rfl rfl

/-- Claim C9: after a successfully handled instruction the dispatch loop
advances the program counter by exactly 1 plus the opcode's immediate
length from the metadata table (which exists for every handled opcode), and
the loop halts exactly when the program counter reaches or exceeds the
bytecode length. -/
theorem dispatch_advances_pc_and_halts_at_end (ec ec1 : ExecutionContext) (opcode : Nat)
    (handler : ExecutionContext → StepResult)
    (hpc : ec.program_counter < ec.bytecode.length)
    (hop : ec.bytecode.getD ec.program_counter 0 = opcode)
    (hhandler : kOpcodeHandlers opcode = some handler)
    (hok : handler ec = .ok ec1) :
    (∃ info, kOpcodeInfo opcode = some info ∧
      step ec = .next { ec1 with program_counter := ec1.program_counter + 1 + info.advance_by }) ∧
    (∀ ec2 : ExecutionContext, step ec2 = .halt ec2 ↔ ec2.bytecode.length ≤ ec2.program_counter) := by
  constructor
  · obtain ⟨info, hinfo⟩ := kOpcodeInfo_exists_of_handler opcode handler hhandler
    refine ⟨info, hinfo, ?_⟩
    rw [step_eval ec hpc, hop, stepFetch_eval ec opcode handler hhandler, hok,
      stepRun_ok_eval ec ec1 opcode info hinfo]
  · intro ec2
    constructor
    · intro hhalt
      by_contra hlt
      push_neg at hlt
      exact step_not_halt_of_lt ec2 hlt ec2 hhalt
    · intro hge
      exact step_halt_eval ec2 hge

/-- Claim C9 witness: PUSH1 advances the program counter by 2 (1 plus its
immediate length 1), and the loop halts once the counter passes the end. -/
theorem dispatch_advances_pc_and_halts_at_end_witness :
    step ⟨0, [kPush1, 7], [], mem0⟩ = .next ⟨2, [kPush1, 7], [7], mem0⟩ ∧
    step ⟨2, [kPush1, 7], [7], mem0⟩ = .halt ⟨2, [kPush1, 7], [7], mem0⟩ := by
  have h := dispatch_advances_pc_and_halts_at_end ⟨0, [kPush1, 7], [], mem0⟩
    ⟨0, [kPush1, 7], [7], mem0⟩ kPush1 (PushToStack 1) (by decide) rfl rfl rfl
  obtain ⟨⟨info, hinfo, hstep⟩, hhalt⟩ := h
  refine ⟨?_, (hhalt ⟨2, [kPush1, 7], [7], mem0⟩).mpr (by decide)⟩
  have hinfo2 : info = { advance_by := 1, gas_consumed := 0 } := by
    have h2 : (some { advance_by := 1, gas_consumed := 0 } : Option OpcodeInfo) = some info := by
      rw [← hinfo]
      rfl
    exact (Option.some.inj h2).symm
  subst hinfo2
  exact hstep

/-- Claim C10: JUMPDEST (0x5b) has no handler and no metadata entry, so
fetching a JUMPDEST byte as the current opcode — e.g. by falling through
onto a jump target — terminates the run Aborted with UnrecognizedOpcode,
the context unchanged by that step. -/
theorem jumpdest_fetch_aborts_unrecognized (fuel : Nat) (ec : ExecutionContext)
    (hpc : ec.program_counter < ec.bytecode.length)
    (hop : ec.bytecode.getD ec.program_counter 0 = kJumpDest) :
    kOpcodeHandlers kJumpDest = none ∧ kOpcodeInfo kJumpDest = none ∧
    Interpret (fuel + 1) ec = some (.aborted (.unrecognized kJumpDest) ec) :=
  ⟨rfl, rfl, interpret_aborted_of_no_handler fuel ec kJumpDest hpc hop rfl⟩

/-- Claim C10 witness: on bytecode PUSH1 0, JUMPDEST, sequential execution
reaches offset 2 holding JUMPDEST and the run aborts with
UnrecognizedOpcode there. -/
theorem jumpdest_fetch_aborts_unrecognized_witness :
    kOpcodeHandlers kJumpDest = none ∧ kOpcodeInfo kJumpDest = none ∧
    Interpret 1 ⟨2, [kPush1, 0, kJumpDest], [0], mem0⟩ =
      some (.aborted (.unrecognized kJumpDest) ⟨2, [kPush1, 0, kJumpDest], [0], mem0⟩) :=
  jumpdest_fetch_aborts_unrecognized 0 ⟨2, [kPush1, 0, kJumpDest], [0], mem0⟩ (by decide) rfl

end EvmExec
